import Mathlib

/-!
Shallow embedding of the core of the vintage-story-ai-assistant repository
(Rust, Tauri backend).  The embedded sources are
src-tauri/src/services/embedding_service.rs, vector_database.rs,
wiki_service.rs and src-tauri/src/config.rs.  Floating-point (f32) values
are modelled as real numbers; the u32 arithmetic of the rolling hash is
modelled as Nat with explicit reduction modulo 2^32.
-/

namespace VSAI

/-!
### Rust string primitives used by the chunker

Rust `str::split_whitespace` yields the maximal runs of non-whitespace
characters, in order, skipping empty runs; `str::trim().is_empty()` holds
exactly when every character of the string is whitespace;
`[&str]::join(" ")` concatenates with a single space between elements.
All three are modelled on the character list (`String.data`) of the
string.  (Lean's `Char.isWhitespace` covers ASCII whitespace; the exotic
Unicode whitespace code points recognised by Rust are out of the model.)
-/

/-- Accumulator pass over the characters: collects maximal non-whitespace
runs.  `acc` holds the current (reversed) run. -/
def splitWSAux : List Char → List Char → List (List Char)
  | [], acc => if acc = [] then [] else [acc.reverse]
  | c :: cs, acc =>
      if c.isWhitespace then
        (if acc = [] then [] else [acc.reverse]) ++ splitWSAux cs []
      else
        splitWSAux cs (c :: acc)

/-- Model of Rust `str::split_whitespace().collect::<Vec<_>>()`. -/
def splitWhitespace (s : String) : List String :=
  (splitWSAux s.data []).map (fun l => String.mk l)

/-- Model of Rust `[&str]::join(" ")`. -/
def joinWithSpace : List String → String
  | [] => ""
  | [w] => w
  | w :: x :: xs => w ++ " " ++ joinWithSpace (x :: xs)

/-- Model of Rust `s.trim().is_empty()`: true iff all characters are
whitespace. -/
def trimIsEmpty (s : String) : Bool :=
  s.data.all (fun c => c.isWhitespace)

/-- Model of Rust `str::trim`: drop whitespace from both ends. -/
def rustTrim (s : String) : String :=
  String.mk (((s.data.dropWhile (fun c => c.isWhitespace)).reverse.dropWhile
    (fun c => c.isWhitespace)).reverse)

/-!
### Configuration (src-tauri/src/config.rs, `EmbeddingConfig`)
-/

/-- EmbeddingConfig from config.rs. -/
structure EmbeddingConfig where
  model_name : String
  chunk_size : Nat
  chunk_overlap : Nat
  batch_size : Nat

/-- Default for EmbeddingConfig from config.rs (chunk_size 512,
chunk_overlap 50, batch_size 10). -/
def EmbeddingConfig.default : EmbeddingConfig :=
  { model_name := "nomic-embed-text"
    chunk_size := 512
    chunk_overlap := 50
    batch_size := 10 }

/-!
### Chunker (embedding_service.rs, `EmbeddingService::split_into_chunks`)

The Rust sliding-window loop

    let mut start = 0;
    while start < words.len() {
        let end = std::cmp::min(start + chunk_size, words.len());
        let chunk = words[start..end].join(" ");
        if !chunk.trim().is_empty() { chunks.push(chunk); }
        if end >= words.len() { break; }
        start = end - overlap;
    }

is embedded fuel-indexed: `none` means the fuel ran out, which models
non-termination of the Rust loop (possible when overlap ≥ chunk_size, when
the start index stops advancing).  `split_into_chunks` supplies
`words.length + 1` fuel, which is proved sufficient whenever
overlap < chunk_size (claim C9).
-/

/-- One fuel-indexed unfolding of the Rust while-loop of
`split_into_chunks`. -/
def chunkLoop (words : List String) (csize ov : Nat) : Nat → Nat → Option (List String)
  | 0, _ => none
  | fuel + 1, start =>
      if start < words.length then
        let e := min (start + csize) words.length
        let chunk := joinWithSpace ((words.drop start).take (e - start))
        let tail :=
          if words.length ≤ e then some []
          else chunkLoop words csize ov fuel (e - ov)
        match tail with
        | none => none
        | some r => some (if trimIsEmpty chunk then r else chunk :: r)
      else
        some []

/-- Model of `EmbeddingService::split_into_chunks`.  Result `none` models a
non-terminating Rust loop. -/
def split_into_chunks (cfg : EmbeddingConfig) (content : String) : Option (List String) :=
  let words := splitWhitespace content
  if words.length ≤ cfg.chunk_size then some [content]
  else chunkLoop words cfg.chunk_size cfg.chunk_overlap (words.length + 1) 0

/-- Helper (verification-only, not from the source): the chunk list the
loop produces, written as a terminating recursion guarded by
`ov < csize`. -/
def chunksSpec (words : List String) (csize ov : Nat) (start : Nat) : List String :=
  if _h : start < words.length ∧ ov < csize then
    joinWithSpace ((words.drop start).take (min (start + csize) words.length - start)) ::
      (if words.length ≤ start + csize then []
       else chunksSpec words csize ov (start + (csize - ov)))
  else []
  termination_by words.length - start
  decreasing_by
    simp only [not_le] at *
    omega

/-- A word produced by whitespace splitting: non-empty and free of
whitespace characters. -/
def isWord (w : String) : Prop :=
  w.data ≠ [] ∧ ∀ c ∈ w.data, c.isWhitespace = false

lemma splitWSAux_cons_ws (c : Char) (cs acc : List Char) (hc : c.isWhitespace = true) :
    splitWSAux (c :: cs) acc =
      (if acc = [] then [] else [acc.reverse]) ++ splitWSAux cs [] := by
  simp only [splitWSAux, hc, if_true]

lemma splitWSAux_cons_not_ws (c : Char) (cs acc : List Char) (hc : c.isWhitespace = false) :
    splitWSAux (c :: cs) acc = splitWSAux cs (c :: acc) := by
  simp only [splitWSAux, hc, Bool.false_eq_true, if_false]

lemma splitWSAux_mem (cs : List Char) :
    ∀ acc, (∀ c ∈ acc, c.isWhitespace = false) →
    ∀ l ∈ splitWSAux cs acc, l ≠ [] ∧ ∀ c ∈ l, c.isWhitespace = false := by
  induction cs with
  | nil =>
      intro acc hacc l hl
      by_cases h : acc = []
      · simp [splitWSAux, h] at hl
      · simp only [splitWSAux, if_neg h, List.mem_singleton] at hl
        subst hl
        refine ⟨by simpa using h, ?_⟩
        intro c hc
        exact hacc c (List.mem_reverse.mp hc)
  | cons c cs ih =>
      intro acc hacc l hl
      by_cases hws : c.isWhitespace
      · simp only [splitWSAux, if_pos hws, List.mem_append] at hl
        rcases hl with hl | hl
        · by_cases h : acc = []
          · simp [h] at hl
          · simp only [if_neg h, List.mem_singleton] at hl
            subst hl
            exact ⟨by simpa using h, fun d hd => hacc d (List.mem_reverse.mp hd)⟩
        · exact ih [] (by simp) l hl
      · simp only [splitWSAux, if_neg hws] at hl
        refine ih (c :: acc) ?_ l hl
        intro d hd
        rcases List.mem_cons.mp hd with rfl | hd
        · simpa using hws
        · exact hacc d hd

lemma splitWhitespace_isWord (s : String) :
    ∀ w ∈ splitWhitespace s, isWord w := by
  intro w hw
  simp only [splitWhitespace, List.mem_map] at hw
  obtain ⟨l, hl, rfl⟩ := hw
  have := splitWSAux_mem s.data [] (by simp) l hl
  exact ⟨by simpa using this.1, by simpa using this.2⟩

lemma data_append (s t : String) : (s ++ t).data = s.data ++ t.data := rfl

lemma mk_data (s : String) : String.mk s.data = s := rfl

lemma joinWithSpace_data_cons (w x : String) (xs : List String) :
    (joinWithSpace (w :: x :: xs)).data =
      w.data ++ ' ' :: (joinWithSpace (x :: xs)).data := by
  show ((w ++ " ") ++ joinWithSpace (x :: xs)).data = _
  rw [data_append, data_append]
  have h : (" " : String).data = [' '] := rfl
  rw [h, List.append_assoc]
  rfl

lemma trimIsEmpty_join_eq_false (ws : List String) (hne : ws ≠ [])
    (hw : ∀ w ∈ ws, isWord w) : trimIsEmpty (joinWithSpace ws) = false := by
  match ws with
  | [] => exact absurd rfl hne
  | [w] =>
      have hword := hw w (by simp)
      obtain ⟨c, cs, hc⟩ : ∃ c cs, w.data = c :: cs := by
        cases hd : w.data with
        | nil => exact absurd hd hword.1
        | cons c cs => exact ⟨c, cs, rfl⟩
      have hcw : c.isWhitespace = false := hword.2 c (by simp [hc])
      simp [trimIsEmpty, joinWithSpace, hc, hcw]
  | w :: x :: xs =>
      have hword := hw w (by simp)
      obtain ⟨c, cs, hc⟩ : ∃ c cs, w.data = c :: cs := by
        cases hd : w.data with
        | nil => exact absurd hd hword.1
        | cons c cs => exact ⟨c, cs, rfl⟩
      have hcw : c.isWhitespace = false := hword.2 c (by simp [hc])
      simp [trimIsEmpty, joinWithSpace_data_cons, hc, hcw]

lemma splitWSAux_append (xs : List Char) :
    ∀ ys acc, (∀ c ∈ xs, c.isWhitespace = false) →
    splitWSAux (xs ++ ys) acc = splitWSAux ys (xs.reverse ++ acc) := by
  induction xs with
  | nil => intro ys acc _; simp
  | cons c xs ih =>
      intro ys acc hx
      have hc : c.isWhitespace = false := hx c (by simp)
      show splitWSAux (c :: (xs ++ ys)) acc = _
      rw [splitWSAux, hc]
      simp only [Bool.false_eq_true, if_false]
      rw [ih ys (c :: acc) (fun d hd => hx d (by simp [hd]))]
      simp

lemma splitWSAux_join (ws : List String) (hw : ∀ w ∈ ws, isWord w) :
    splitWSAux (joinWithSpace ws).data [] = ws.map String.data := by
  induction ws with
  | nil => simp [joinWithSpace, splitWSAux]
  | cons w tail ih =>
      cases tail with
      | nil =>
          have hword := hw w (by simp)
          have h2 := splitWSAux_append w.data [] [] (fun c hc => hword.2 c hc)
          rw [List.append_nil] at h2
          show splitWSAux w.data [] = [w.data]
          rw [h2]
          simp [splitWSAux, hword.1]
      | cons x xs =>
          have hword := hw w (by simp)
          rw [joinWithSpace_data_cons,
            splitWSAux_append w.data _ [] (fun c hc => hword.2 c hc),
            List.append_nil,
            splitWSAux_cons_ws ' ' _ _ (by decide),
            if_neg (by simpa using hword.1),
            ih (fun v hv => hw v (by simp [hv]))]
          simp

lemma splitWhitespace_join (ws : List String) (hw : ∀ w ∈ ws, isWord w) :
    splitWhitespace (joinWithSpace ws) = ws := by
  unfold splitWhitespace
  rw [splitWSAux_join ws hw, List.map_map]
  have : ∀ vs : List String, vs.map (fun w => String.mk w.data) = vs := by
    intro vs
    induction vs with
    | nil => rfl
    | cons a t iht => simp only [List.map_cons, iht]
  exact this ws

lemma chunk_trim_false (words : List String) (hw : ∀ w ∈ words, isWord w)
    (start n : Nat) (hs : start < words.length) (hn : 0 < n) :
    trimIsEmpty (joinWithSpace ((words.drop start).take n)) = false := by
  apply trimIsEmpty_join_eq_false
  · have hlen : ((words.drop start).take n).length = min n (words.length - start) := by
      simp [List.length_take, List.length_drop]
    intro hnil
    rw [hnil] at hlen
    simp only [List.length_nil] at hlen
    omega
  · intro w hmem
    exact hw w (List.mem_of_mem_drop (List.mem_of_mem_take hmem))

lemma chunkLoop_eq_chunksSpec (words : List String) (csize ov : Nat)
    (hov : ov < csize) (hw : ∀ w ∈ words, isWord w) :
    ∀ fuel start, start < words.length → words.length - start ≤ fuel →
    chunkLoop words csize ov fuel start = some (chunksSpec words csize ov start) := by
  intro fuel
  induction fuel with
  | zero => intro start hs hf; omega
  | succ f ih =>
      intro start hs hf
      by_cases hend : words.length ≤ start + csize
      · have hmin : min (start + csize) words.length = words.length :=
          min_eq_right hend
        have htrim : trimIsEmpty (joinWithSpace ((words.drop start).take
            (min (start + csize) words.length - start))) = false := by
          apply chunk_trim_false words hw start _ hs
          omega
        rw [hmin] at htrim
        rw [chunksSpec, dif_pos ⟨hs, hov⟩, if_pos hend]
        simp only [chunkLoop, if_pos hs, hmin, le_refl, if_pos, htrim,
          Bool.false_eq_true, if_false]
      · have hmin : min (start + csize) words.length = start + csize :=
          min_eq_left (le_of_not_le hend)
        have hlt : start + csize < words.length := lt_of_not_le hend
        have htrim : trimIsEmpty (joinWithSpace ((words.drop start).take
            (min (start + csize) words.length - start))) = false := by
          apply chunk_trim_false words hw start _ hs
          omega
        rw [hmin] at htrim
        have hrec := ih (start + csize - ov) (by omega) (by omega)
        rw [chunksSpec, dif_pos ⟨hs, hov⟩, if_neg hend]
        have harg : start + (csize - ov) = start + csize - ov := by omega
        rw [harg]
        simp only [chunkLoop, if_pos hs, hmin, if_neg hend, hrec, htrim,
          Bool.false_eq_true, if_false]

lemma chunksSpec_length (words : List String) (csize ov : Nat) (hov : ov < csize) :
    ∀ n start, words.length - start ≤ n → start + ov < words.length →
    (chunksSpec words csize ov start).length =
      (words.length - start - ov + (csize - ov) - 1) / (csize - ov) := by
  intro n
  induction n with
  | zero => intro start h1 h2; omega
  | succ n ih =>
      intro start h1 h2
      have hs : start < words.length := by omega
      rw [chunksSpec, dif_pos ⟨hs, hov⟩]
      by_cases hend : words.length ≤ start + csize
      · rw [if_pos hend]
        simp only [List.length_cons, List.length_nil, Nat.zero_add]
        refine (Nat.div_eq_of_lt_le ?_ ?_).symm
        · omega
        · omega
      · rw [if_neg hend]
        simp only [List.length_cons]
        rw [ih (start + (csize - ov)) (by omega) (by omega)]
        have hnum : words.length - start - ov + (csize - ov) - 1 =
            (words.length - (start + (csize - ov)) - ov + (csize - ov) - 1) +
              (csize - ov) := by omega
        rw [hnum, Nat.add_div_right _ (by omega : 0 < csize - ov)]

/-- Relation between two consecutive chunks: the last `ov` words of the
first are the first `ov` words of the second. -/
def overlapRel (ov : Nat) (a b : String) : Prop :=
  (splitWhitespace a).drop ((splitWhitespace a).length - ov) =
    (splitWhitespace b).take ov

lemma slice_words (words : List String) (hw : ∀ w ∈ words, isWord w)
    (start n : Nat) :
    ∀ w ∈ (words.drop start).take n, isWord w := fun w hmem =>
  hw w (List.mem_of_mem_drop (List.mem_of_mem_take hmem))

lemma chunksSpec_chain (words : List String) (csize ov : Nat)
    (hov : ov < csize) (hw : ∀ w ∈ words, isWord w) :
    ∀ n start, words.length - start ≤ n → start + ov < words.length →
    List.Chain' (overlapRel ov) (chunksSpec words csize ov start) := by
  intro n
  induction n with
  | zero => intro start h1 h2; omega
  | succ n ih =>
      intro start h1 h2
      have hs : start < words.length := by omega
      rw [chunksSpec, dif_pos ⟨hs, hov⟩]
      by_cases hend : words.length ≤ start + csize
      · rw [if_pos hend]
        exact List.chain'_singleton _
      · rw [if_neg hend]
        have hlt : start + csize < words.length := lt_of_not_le hend
        have hs' : start + (csize - ov) < words.length := by omega
        have hchain := ih (start + (csize - ov)) (by omega) (by omega)
        refine List.chain'_cons'.mpr ⟨?_, hchain⟩
        intro b hb
        rw [chunksSpec, dif_pos ⟨hs', hov⟩] at hb
        simp only [List.head?_cons, Option.mem_def, Option.some_inj] at hb
        subst hb
        -- both chunks are joins of word slices; reduce to list algebra
        have hmin1 : min (start + csize) words.length = start + csize :=
          min_eq_left (le_of_lt hlt)
        unfold overlapRel
        rw [hmin1]
        have hslice1 : ∀ w ∈ (words.drop start).take (start + csize - start), isWord w :=
          slice_words words hw _ _
        have hslice2 : ∀ w ∈ (words.drop (start + (csize - ov))).take
            (min (start + (csize - ov) + csize) words.length - (start + (csize - ov))),
            isWord w := slice_words words hw _ _
        rw [splitWhitespace_join _ hslice1, splitWhitespace_join _ hslice2]
        have hlen1 : ((words.drop start).take (start + csize - start)).length =
            csize := by
          simp only [List.length_take, List.length_drop]
          omega
        rw [hlen1]
        -- last ov words of the first slice
        have lhs_eq : ((words.drop start).take (start + csize - start)).drop (csize - ov) =
            (words.drop (start + (csize - ov))).take ov := by
          have h1 : start + csize - start = csize := by omega
          rw [h1, List.drop_take]
          have h2 : csize - (csize - ov) = ov := by omega
          rw [List.drop_drop, h2]
        rw [lhs_eq]
        -- first ov words of the second slice
        have hn' : ov ≤ min (start + (csize - ov) + csize) words.length -
            (start + (csize - ov)) := by
          rcases le_or_lt (start + (csize - ov) + csize) words.length with h | h
          · rw [min_eq_left h]; omega
          · rw [min_eq_right (le_of_lt h)]; omega
        rw [List.take_take, min_eq_left hn']

/-- C2: for content whose word count exceeds chunk_size, with
overlap < chunk_size, split_into_chunks terminates with a chunk list in
which the last `overlap` words of each chunk are the first `overlap` words
of the next, and whose length is ceil((word_count - overlap) /
(chunk_size - overlap)). -/
theorem split_chunk_count_and_overlap (cfg : EmbeddingConfig) (content : String)
    (hov : cfg.chunk_overlap < cfg.chunk_size)
    (hW : cfg.chunk_size < (splitWhitespace content).length) :
    ∃ cs, split_into_chunks cfg content = some cs ∧
      cs.length = ((splitWhitespace content).length - cfg.chunk_overlap +
          (cfg.chunk_size - cfg.chunk_overlap) - 1) /
        (cfg.chunk_size - cfg.chunk_overlap) ∧
      ∀ i, i + 1 < cs.length →
        (splitWhitespace (cs.getD i "")).drop
            ((splitWhitespace (cs.getD i "")).length - cfg.chunk_overlap) =
          (splitWhitespace (cs.getD (i + 1) "")).take cfg.chunk_overlap := by
  have hw := splitWhitespace_isWord content
  have h0 : (0 : Nat) < (splitWhitespace content).length := by omega
  have heq := chunkLoop_eq_chunksSpec (splitWhitespace content) cfg.chunk_size
      cfg.chunk_overlap hov hw ((splitWhitespace content).length + 1) 0 h0 (by omega)
  refine ⟨chunksSpec (splitWhitespace content) cfg.chunk_size cfg.chunk_overlap 0,
    ?_, ?_, ?_⟩
  · show (if (splitWhitespace content).length ≤ cfg.chunk_size then some [content]
        else chunkLoop (splitWhitespace content) cfg.chunk_size cfg.chunk_overlap
          ((splitWhitespace content).length + 1) 0) = _
    rw [if_neg (by omega)]
    exact heq
  · have := chunksSpec_length (splitWhitespace content) cfg.chunk_size
      cfg.chunk_overlap hov (splitWhitespace content).length 0 (by omega) (by omega)
    simpa using this
  · intro i hi
    have hchain := chunksSpec_chain (splitWhitespace content) cfg.chunk_size
      cfg.chunk_overlap hov hw (splitWhitespace content).length 0 (by omega) (by omega)
    have h2 := List.chain'_iff_get.mp hchain i (by omega)
    unfold overlapRel at h2
    rw [List.getD_eq_getElem _ _ (by omega : i < _), List.getD_eq_getElem _ _ hi]
    simpa [List.get_eq_getElem] using h2

/-- Witness for C2 at a concrete input: chunk_size 3, overlap 1, five
words. -/
theorem split_chunk_count_and_overlap_witness :
    (1 : Nat) < 3 ∧ (3 : Nat) < (splitWhitespace ("a b c d e")).length ∧
    (∃ cs, split_into_chunks ⟨"m", 3, 1, 10⟩ ("a b c d e") = some cs ∧
      cs.length = ((splitWhitespace ("a b c d e")).length - 1 + (3 - 1) - 1) / (3 - 1) ∧
      ∀ i, i + 1 < cs.length →
        (splitWhitespace (cs.getD i "")).drop
            ((splitWhitespace (cs.getD i "")).length - 1) =
          (splitWhitespace (cs.getD (i + 1) "")).take 1) :=
  ⟨by decide, by decide,
    split_chunk_count_and_overlap ⟨"m", 3, 1, 10⟩ ("a b c d e") (by decide) (by decide)⟩

/-- C4 counterexample: for whitespace-padded content of at most chunk_size
words, the single chunk returned is the content itself, not the trimmed
content. -/
theorem split_short_chunk_not_trimmed :
    split_into_chunks EmbeddingConfig.default (" a ") = some [(" a ")] ∧
    rustTrim (" a ") = ("a") ∧
    split_into_chunks EmbeddingConfig.default (" a ") ≠
      some [rustTrim (" a ")] := by
  refine ⟨by decide, by decide, by decide⟩

/-- C4 (amended): for content of at most chunk_size words,
split_into_chunks returns exactly one chunk, equal to the content
itself. -/
theorem split_short_single_chunk (cfg : EmbeddingConfig) (content : String)
    (hW : (splitWhitespace content).length ≤ cfg.chunk_size) :
    split_into_chunks cfg content = some [content] := by
  show (if (splitWhitespace content).length ≤ cfg.chunk_size then some [content]
      else chunkLoop (splitWhitespace content) cfg.chunk_size cfg.chunk_overlap
        ((splitWhitespace content).length + 1) 0) = _
  rw [if_pos hW]

/-- Witness for the amended C4 at a concrete input. -/
theorem split_short_single_chunk_witness :
    (splitWhitespace (" a ")).length ≤ EmbeddingConfig.default.chunk_size ∧
    split_into_chunks EmbeddingConfig.default (" a ") = some [(" a ")] :=
  ⟨by decide, split_short_single_chunk EmbeddingConfig.default (" a ") (by decide)⟩

/-- C9: whenever overlap < chunk_size the sliding-window loop of
split_into_chunks terminates (the fuelled loop does not exhaust its fuel:
the result is some chunk list). -/
theorem split_into_chunks_terminates (cfg : EmbeddingConfig) (content : String)
    (hov : cfg.chunk_overlap < cfg.chunk_size) :
    (split_into_chunks cfg content).isSome := by
  by_cases hW : (splitWhitespace content).length ≤ cfg.chunk_size
  · show (if (splitWhitespace content).length ≤ cfg.chunk_size then some [content]
        else chunkLoop (splitWhitespace content) cfg.chunk_size cfg.chunk_overlap
          ((splitWhitespace content).length + 1) 0).isSome
    rw [if_pos hW]
    rfl
  · show (if (splitWhitespace content).length ≤ cfg.chunk_size then some [content]
        else chunkLoop (splitWhitespace content) cfg.chunk_size cfg.chunk_overlap
          ((splitWhitespace content).length + 1) 0).isSome
    rw [if_neg hW,
      chunkLoop_eq_chunksSpec (splitWhitespace content) cfg.chunk_size
        cfg.chunk_overlap hov (splitWhitespace_isWord content)
        ((splitWhitespace content).length + 1) 0 (by omega) (by omega)]
    rfl

/-- Witness for C9 at a concrete input. -/
theorem split_into_chunks_terminates_witness :
    (1 : Nat) < 2 ∧ (split_into_chunks ⟨"m", 2, 1, 10⟩ ("a b c d")).isSome :=
  ⟨by decide, split_into_chunks_terminates ⟨"m", 2, 1, 10⟩ ("a b c d") (by decide)⟩

/-!
### Cosine similarity (vector_database.rs and embedding_service.rs)

Both files contain the identical private `cosine_similarity` helper; f32
arithmetic is modelled over ℝ.
-/

/-- Dot product of the zipped vectors, as in the Rust
`vec_a.iter().zip(vec_b.iter()).map(|(a, b)| a * b).sum()`. -/
def dotProduct (a b : List ℝ) : ℝ :=
  ((a.zip b).map (fun p => p.1 * p.2)).sum

/-- Sum of squares, as in `vec.iter().map(|x| x * x).sum::<f32>()`. -/
def sumSquares (a : List ℝ) : ℝ :=
  (a.map (fun x => x * x)).sum

/-- Magnitude `sum-of-squares.sqrt()`. -/
noncomputable def magnitude (a : List ℝ) : ℝ :=
  Real.sqrt (sumSquares a)

/-- Model of `cosine_similarity` from vector_database.rs lines 176-190 (and
the identical embedding_service.rs lines 311-325). -/
noncomputable def cosine_similarity (a b : List ℝ) : ℝ :=
  if a.length ≠ b.length then 0
  else if magnitude a = 0 ∨ magnitude b = 0 then 0
  else dotProduct a b / (magnitude a * magnitude b)

lemma sumSquares_nonneg (a : List ℝ) : 0 ≤ sumSquares a := by
  apply List.sum_nonneg
  intro x hx
  simp only [List.mem_map] at hx
  obtain ⟨y, _, rfl⟩ := hx
  exact mul_self_nonneg y

lemma dotProduct_self (a : List ℝ) : dotProduct a a = sumSquares a := by
  induction a with
  | nil => rfl
  | cons x a ih =>
      simp only [dotProduct, sumSquares, List.zip_cons_cons, List.map_cons,
        List.sum_cons] at *
      rw [ih]

lemma dotProduct_comm (a : List ℝ) : ∀ b, dotProduct a b = dotProduct b a := by
  induction a with
  | nil => intro b; cases b <;> rfl
  | cons x a ih =>
      intro b
      cases b with
      | nil => rfl
      | cons y b =>
          simp only [dotProduct, List.zip_cons_cons, List.map_cons,
            List.sum_cons] at *
          rw [ih b, mul_comm]

lemma magnitude_eq_zero (a : List ℝ) : magnitude a = 0 ↔ sumSquares a = 0 := by
  unfold magnitude
  rw [Real.sqrt_eq_zero (sumSquares_nonneg a)]

/-- C7: cosine similarity is symmetric; equals 1 on a vector of non-zero
magnitude paired with itself; equals 0 when the dot product vanishes
(orthogonality); equals 0 when either magnitude is 0; and equals 0 when the
lengths differ. -/
theorem cosine_similarity_properties :
    (∀ a b : List ℝ, cosine_similarity a b = cosine_similarity b a) ∧
    (∀ a : List ℝ, magnitude a ≠ 0 → cosine_similarity a a = 1) ∧
    (∀ a b : List ℝ, dotProduct a b = 0 → cosine_similarity a b = 0) ∧
    (∀ a b : List ℝ, magnitude a = 0 ∨ magnitude b = 0 → cosine_similarity a b = 0) ∧
    (∀ a b : List ℝ, a.length ≠ b.length → cosine_similarity a b = 0) := by
  refine ⟨?_, ?_, ?_, ?_, ?_⟩
  · intro a b
    unfold cosine_similarity
    by_cases hl : a.length = b.length
    · rw [if_neg (not_not_intro hl), if_neg (not_not_intro hl.symm)]
      by_cases hm : magnitude a = 0 ∨ magnitude b = 0
      · rw [if_pos hm, if_pos hm.symm]
      · rw [if_neg hm, if_neg (fun h => hm h.symm), dotProduct_comm, mul_comm]

    · rw [if_pos hl, if_pos (Ne.symm hl)]
  · intro a hm
    unfold cosine_similarity
    rw [if_neg (not_not_intro rfl), if_neg (by simpa using hm), dotProduct_self]
    have hs : sumSquares a ≠ 0 := fun h => hm ((magnitude_eq_zero a).mpr h)
    unfold magnitude
    rw [Real.mul_self_sqrt (sumSquares_nonneg a)]
    exact div_self hs
  · intro a b hd
    unfold cosine_similarity
    by_cases hl : a.length ≠ b.length
    · rw [if_pos hl]
    · rw [if_neg hl]
      by_cases hm : magnitude a = 0 ∨ magnitude b = 0
      · rw [if_pos hm]
      · rw [if_neg hm, hd, zero_div]
  · intro a b hm
    unfold cosine_similarity
    by_cases hl : a.length ≠ b.length
    · rw [if_pos hl]
    · rw [if_neg hl, if_pos hm]
  · intro a b hl
    unfold cosine_similarity
    rw [if_pos hl]

/-- Witness for C7 at concrete vectors. -/
theorem cosine_similarity_properties_witness :
    (magnitude [(1 : ℝ), 0] ≠ 0 ∧ cosine_similarity [(1 : ℝ), 0] [(1 : ℝ), 0] = 1) ∧
    (dotProduct [(1 : ℝ), 0] [(0 : ℝ), 1] = 0 ∧
      cosine_similarity [(1 : ℝ), 0] [(0 : ℝ), 1] = 0) ∧
    (magnitude [(0 : ℝ), 0] = 0 ∧ cosine_similarity [(0 : ℝ), 0] [(1 : ℝ), 1] = 0) ∧
    (([(1 : ℝ)].length ≠ [(1 : ℝ), 0].length) ∧
      cosine_similarity [(1 : ℝ)] [(1 : ℝ), 0] = 0) := by
  have hm1 : magnitude [(1 : ℝ), 0] ≠ 0 := by
    unfold magnitude sumSquares
    simp only [List.map_cons, List.map_nil, List.sum_cons, List.sum_nil]
    norm_num
  have hd0 : dotProduct [(1 : ℝ), 0] [(0 : ℝ), 1] = 0 := by
    unfold dotProduct
    simp only [List.zip_cons_cons, List.zip_nil_right, List.map_cons,
      List.map_nil, List.sum_cons, List.sum_nil]
    norm_num
  have hmz : magnitude [(0 : ℝ), 0] = 0 := by
    unfold magnitude sumSquares
    simp only [List.map_cons, List.map_nil, List.sum_cons, List.sum_nil]
    norm_num
  have hlen : ([(1 : ℝ)].length ≠ [(1 : ℝ), 0].length) := by decide
  exact ⟨⟨hm1, cosine_similarity_properties.2.1 _ hm1⟩,
    ⟨hd0, cosine_similarity_properties.2.2.1 _ _ hd0⟩,
    ⟨hmz, cosine_similarity_properties.2.2.2.1 _ _ (Or.inl hmz)⟩,
    ⟨hlen, cosine_similarity_properties.2.2.2.2 _ _ hlen⟩⟩

/-!
### Embedding provider (embedding_service.rs, `create_embedding` /
`create_mock_embedding` / `simple_hash`)

The HTTP exchange with the Ollama endpoint is modelled by a
`ProviderOutcome` argument describing what the environment did: network
failure, non-2xx status, unparseable body, or a parsed JSON body whose
optional `embedding` field is an array of JSON values (`some r` a number,
`none` a non-numeric value).
-/

/-- Error type from errors.rs (message payloads only). -/
inductive AppError where
  | StorageError (msg : String)
  | WikiError (msg : String)
  | EmbeddingError (msg : String)
deriving DecidableEq

/-- Environment behaviour of one POST to the embedding endpoint. -/
inductive ProviderOutcome where
  | unreachable
  | httpFailure (status : Nat)
  | badBody
  | body (embeddingField : Option (List (Option ℝ)))

/-- Model of Rust `simple_hash`: u32 polynomial rolling hash over the
UTF-8 bytes, wrapping arithmetic as mod 2^32. -/
def simple_hash (text : String) : Nat :=
  text.toUTF8.toList.foldl (fun h b => (h * 31 + b.toNat) % 2 ^ 32) 0

/-- Model of `create_mock_embedding` (embedding_service.rs lines 269-301):
a 384-slot vector, `1/word_count` added at the hash slot of each of the
first 100 words, three statistics slots, then L2 normalisation unless the
magnitude is zero.  `text.len()` in Rust is the UTF-8 byte count. -/
noncomputable def create_mock_embedding (text : String) : List ℝ :=
  let base : List ℝ := List.replicate 384 0
  let words := splitWhitespace text
  let word_count : ℝ := (words.length : ℝ)
  let filled := (words.take 100).foldl
    (fun emb w =>
      emb.set (simple_hash w % emb.length)
        (emb.getD (simple_hash w % emb.length) 0 + 1 / word_count)) base
  let withStats :=
    if 10 < filled.length then
      ((filled.set 0 ((text.utf8ByteSize : ℝ) / 1000)).set 1 (word_count / 100)).set 2
        (((text.data.filter (fun c => c = '.')).length : ℝ) / 10)
    else filled
  if 0 < magnitude withStats then withStats.map (fun x => x / magnitude withStats)
  else withStats

/-- Model of `create_embedding` (embedding_service.rs lines 219-267): a
successful 2xx response whose parsed body has a non-empty numeric
`embedding` array is returned as-is; every other outcome falls back to the
deterministic mock embedding. -/
noncomputable def create_embedding (o : ProviderOutcome) (text : String) :
    Except AppError (List ℝ) :=
  match o with
  | .body (some arr) =>
      let embedding := arr.filterMap id
      if embedding.isEmpty then .ok (create_mock_embedding text)
      else .ok embedding
  | _ => .ok (create_mock_embedding text)

/-- Model of the public `embed_text`, which delegates to
`create_embedding`. -/
noncomputable def embed_text (o : ProviderOutcome) (text : String) :
    Except AppError (List ℝ) :=
  create_embedding o text

/-- The provider outcomes that route to the mock fallback: everything
except a 2xx response with a non-empty numeric embedding array. -/
def routesToFallback : ProviderOutcome → Prop
  | .body (some arr) => arr.filterMap id = []
  | _ => True

lemma create_mock_embedding_length (text : String) :
    (create_mock_embedding text).length = 384 := by
  have hfold : ∀ (ws : List String) (c : ℝ) (emb : List ℝ),
      (ws.foldl (fun e w =>
        e.set (simple_hash w % e.length)
          (e.getD (simple_hash w % e.length) 0 + 1 / c)) emb).length = emb.length := by
    intro ws c
    induction ws with
    | nil => intro emb; rfl
    | cons w ws ih => intro emb; rw [List.foldl_cons, ih, List.length_set]
  unfold create_mock_embedding
  simp only [apply_ite List.length, List.length_map, List.length_set, hfold,
    List.length_replicate, ite_self]

/-- C1 counterexample to the claim as stated: with the provider reachable
and returning a non-empty numeric array of length 1, `create_embedding`
returns that array unchanged, so the result does not have length 384. -/
theorem create_embedding_passthrough_short_vector :
    create_embedding (ProviderOutcome.body (some [some (1 : ℝ)])) ("hello") =
      Except.ok [(1 : ℝ)] ∧ [(1 : ℝ)].length ≠ 384 := by
  constructor
  · unfold create_embedding
    simp
  · decide

/-- C1 (amended): for any non-empty text, `create_embedding` always
returns Ok; on every fallback-routed outcome (unreachable, non-2xx,
malformed body, missing or empty or non-numeric embedding array) it
returns the deterministic mock vector, whose length is 384. -/
theorem create_embedding_total_and_fallback (o : ProviderOutcome) (text : String)
    (_hne : text ≠ "") :
    (∃ v, create_embedding o text = Except.ok v) ∧
    (routesToFallback o →
      create_embedding o text = Except.ok (create_mock_embedding text)) ∧
    (create_mock_embedding text).length = 384 := by
  refine ⟨?_, ?_, create_mock_embedding_length text⟩
  · cases o with
    | body f =>
        cases f with
        | none => exact ⟨_, rfl⟩
        | some arr =>
            simp only [create_embedding]
            by_cases h : (arr.filterMap id).isEmpty
            · rw [if_pos h]; exact ⟨_, rfl⟩
            · rw [if_neg h]; exact ⟨_, rfl⟩
    | unreachable => exact ⟨_, rfl⟩
    | httpFailure s => exact ⟨_, rfl⟩
    | badBody => exact ⟨_, rfl⟩
  · intro hr
    cases o with
    | body f =>
        cases f with
        | none => rfl
        | some arr =>
            simp only [routesToFallback] at hr
            simp only [create_embedding]
            rw [if_pos (by simp [hr])]
    | unreachable => rfl
    | httpFailure s => rfl
    | badBody => rfl

/-- Witness for the amended C1 at a concrete fallback outcome. -/
theorem create_embedding_total_and_fallback_witness :
    ("hi" : String) ≠ "" ∧
    ((∃ v, create_embedding ProviderOutcome.unreachable ("hi") = Except.ok v) ∧
      (routesToFallback ProviderOutcome.unreachable →
        create_embedding ProviderOutcome.unreachable ("hi") =
          Except.ok (create_mock_embedding ("hi"))) ∧
      (create_mock_embedding ("hi")).length = 384) :=
  ⟨by decide,
    create_embedding_total_and_fallback ProviderOutcome.unreachable ("hi") (by decide)⟩

/-!
### Vector store (vector_database.rs)

A record as persisted.  bincode serialisation round-trips, so the sled
key-value pairs are modelled directly as an association list keyed by the
document id (sled keys the raw id bytes; UTF-8 encoding is injective).
For the search scan, each stored entry is either a readable record or a
failed read (sled iteration error or bincode deserialisation failure),
both of which the Rust loop logs and skips.
-/

/-- VectorDocument from vector_database.rs. -/
structure VectorDocument where
  id : String
  content : String
  source_url : String
  source_title : String
  embedding : List ℝ
  metadata : String

/-- One entry yielded by iterating the sled tree. -/
inductive StoreEntry where
  | ok (doc : VectorDocument)
  | readError
deriving Inhabited

/-- Descending-score comparison used by
`results.sort_by(|a, b| b.1.partial_cmp(&a.1).unwrap())`. -/
def scoreGE (a b : VectorDocument × ℝ) : Prop := b.2 ≤ a.2

noncomputable instance : DecidableRel scoreGE := fun a b =>
  inferInstanceAs (Decidable (b.2 ≤ a.2))

instance : IsTotal (VectorDocument × ℝ) scoreGE :=
  ⟨fun a b => (le_total b.2 a.2).elim Or.inl Or.inr⟩

instance : IsTrans (VectorDocument × ℝ) scoreGE :=
  ⟨fun _ _ _ hab hbc => le_trans hbc hab⟩

/-- Model of `VectorDatabase::search_similar` (lines 111-135): linear scan
skipping unreadable entries, score by cosine similarity, stable sort
descending, truncate to `limit`.  The Rust `sort_by` is stable; insertion
sort models it. -/
noncomputable def vdb_search_similar (entries : List StoreEntry) (embedding : List ℝ)
    (limit : Nat) : List (VectorDocument × ℝ) :=
  let results := entries.filterMap (fun e =>
    match e with
    | .ok doc => some (doc, cosine_similarity embedding doc.embedding)
    | .readError => none)
  (results.insertionSort scoreGE).take limit

/-- The sled tree contents: association list keyed by document id. -/
abbrev Store := List (String × VectorDocument)

/-- Whether a key is present (sled `insert` overwrites in that case). -/
def hasKey (store : Store) (k : String) : Bool :=
  store.any (fun p => p.1 = k)

/-- One `batch.insert(key, value)`: upsert semantics of sled. -/
def insertKV (store : Store) (k : String) (v : VectorDocument) : Store :=
  if hasKey store k then store.map (fun p => if p.1 = k then (k, v) else p)
  else store ++ [(k, v)]

/-- Model of `VectorDatabase::insert_documents` (lines 86-109): early
return on the empty batch, otherwise apply the batch (sequential upserts,
last write wins) and flush.  Serialisation and flushing of these plain
records cannot fail in the model. -/
def insert_documents (store : Store) (docs : List VectorDocument) :
    Except AppError Store :=
  if docs.isEmpty then Except.ok store
  else Except.ok (docs.foldl (fun s d => insertKV s d.id d) store)

/-- Model of `VectorDatabase::count_documents` = `db.len()`: the number of
keys. -/
def count_documents (store : Store) : Nat := store.length

/-- C5: the search result is sorted by non-increasing similarity score and
never holds more than `limit` elements, for every store contents. -/
theorem vdb_search_sorted_and_truncated (entries : List StoreEntry)
    (q : List ℝ) (limit : Nat) :
    (vdb_search_similar entries q limit).length ≤ limit ∧
    (vdb_search_similar entries q limit).Pairwise (fun a b => b.2 ≤ a.2) := by
  constructor
  · exact List.length_take_le limit _
  · have hs : List.Sorted scoreGE
        (((entries.filterMap (fun e =>
          match e with
          | .ok doc => some (doc, cosine_similarity q doc.embedding)
          | .readError => none))).insertionSort scoreGE) :=
      List.sorted_insertionSort scoreGE _
    exact List.Pairwise.sublist (List.take_sublist limit _) hs

/-- C6 counterexample to the claim as stated: a batch of two records with
the same id raises the count by 1, not by 2, because the sled insert is an
upsert. -/
theorem insert_duplicate_ids_count :
    insert_documents [] [⟨"x", "", "", "", [], ""⟩, ⟨"x", "", "", "", [], ""⟩] =
      Except.ok [("x", ⟨"x", "", "", "", [], ""⟩)] ∧
    count_documents [("x", ⟨"x", "", "", "", [], ""⟩)] = 1 ∧ (1 : Nat) ≠ 0 + 2 := by
  refine ⟨by rfl, by rfl, by decide⟩

lemma hasKey_append_single (store : Store) (k k' : String) (v : VectorDocument) :
    hasKey (store ++ [(k, v)]) k' = (hasKey store k' || decide (k = k')) := by
  unfold hasKey
  rw [List.any_append]
  simp

lemma foldl_insert_fresh_length (docs : List VectorDocument) :
    ∀ store : Store, (∀ d ∈ docs, hasKey store d.id = false) →
    (docs.map (fun d => d.id)).Nodup →
    (docs.foldl (fun s d => insertKV s d.id d) store).length =
      store.length + docs.length := by
  induction docs with
  | nil => intro store _ _; simp
  | cons d ds ih =>
      intro store hfresh hnodup
      rw [List.foldl_cons]
      have hd : hasKey store d.id = false := hfresh d (by simp)
      have hins : insertKV store d.id d = store ++ [(d.id, d)] := by
        unfold insertKV
        rw [hd]
        simp
      rw [hins]
      rw [List.map_cons] at hnodup
      have hnotin : d.id ∉ ds.map (fun d => d.id) := (List.nodup_cons.mp hnodup).1
      rw [ih (store ++ [(d.id, d)]) ?_ ?_]
      · simp [List.length_append]
        omega
      · intro e he
        rw [hasKey_append_single]
        have h1 : hasKey store e.id = false := hfresh e (by simp [he])
        have h2 : d.id ≠ e.id := fun hEq =>
          hnotin (by rw [hEq]; exact List.mem_map.mpr ⟨e, he, rfl⟩)
        simp [h1, h2]
      · exact (List.nodup_cons.mp hnodup).2

/-- C6 (amended): inserting an empty batch is a no-op success, and
inserting a batch of N records whose ids are pairwise distinct and not
already keys of the store raises the count by exactly N. -/
theorem insert_documents_count (store : Store) (docs : List VectorDocument)
    (hnodup : (docs.map (fun d => d.id)).Nodup)
    (hfresh : ∀ d ∈ docs, hasKey store d.id = false) :
    insert_documents store [] = Except.ok store ∧
    ∃ store', insert_documents store docs = Except.ok store' ∧
      count_documents store' = count_documents store + docs.length := by
  refine ⟨rfl, ?_⟩
  cases docs with
  | nil => exact ⟨store, rfl, by simp [count_documents]⟩
  | cons d ds =>
      refine ⟨(d :: ds).foldl (fun s d => insertKV s d.id d) store, ?_, ?_⟩
      · unfold insert_documents
        rfl
      · unfold count_documents
        exact foldl_insert_fresh_length (d :: ds) store hfresh hnodup

/-- Witness for the amended C6 at a concrete batch. -/
theorem insert_documents_count_witness :
    (([⟨"a", "", "", "", [], ""⟩] : List VectorDocument).map (fun d => d.id)).Nodup ∧
    (∀ d ∈ ([⟨"a", "", "", "", [], ""⟩] : List VectorDocument),
      hasKey [] d.id = false) ∧
    (insert_documents [] [] = Except.ok [] ∧
      ∃ store', insert_documents [] [⟨"a", "", "", "", [], ""⟩] = Except.ok store' ∧
        count_documents store' = count_documents [] + 1) := by
  refine ⟨by simp, ?_, ?_⟩
  · intro d hd
    rfl
  · exact insert_documents_count [] [⟨"a", "", "", "", [], ""⟩] (by simp)
      (fun d _ => rfl)

/-!
### Retrieval pipeline (embedding_service.rs, `search_similar`)

TextChunk's `metadata: HashMap<String, String>` round-trips through a
serde string; no claim inspects it, so both forms are modelled as the
serialized string payload.
-/

/-- TextChunk from embedding_service.rs. -/
structure TextChunk where
  id : String
  content : String
  source_url : String
  source_title : String
  embedding : Option (List ℝ)
  metadata : String

/-- SimilarityResult from embedding_service.rs. -/
structure SimilarityResult where
  chunk : TextChunk
  similarity_score : ℝ

/-- Descending-score comparison used by the in-memory-fallback
`sort_by(|a, b| b.similarity_score.partial_cmp(&a.similarity_score).unwrap())`. -/
def simGE (a b : SimilarityResult) : Prop :=
  b.similarity_score ≤ a.similarity_score

noncomputable instance : DecidableRel simGE := fun a b =>
  inferInstanceAs (Decidable (b.similarity_score ≤ a.similarity_score))

instance : IsTotal SimilarityResult simGE :=
  ⟨fun a b => (le_total b.similarity_score a.similarity_score).elim Or.inl Or.inr⟩

instance : IsTrans SimilarityResult simGE :=
  ⟨fun _ _ _ hab hbc => le_trans hbc hab⟩

/-- Conversion of a database row into the returned chunk (lines 174-188):
the embedding is dropped (`embedding: None`). -/
def docToChunk (doc : VectorDocument) : TextChunk :=
  ⟨doc.id, doc.content, doc.source_url, doc.source_title, none, doc.metadata⟩

/-- The in-memory fallback scan (lines 191-214): score each cached chunk
that has an embedding, sort descending, truncate. -/
noncomputable def in_memory_search (chunks : List TextChunk) (qe : List ℝ)
    (limit : Nat) : List SimilarityResult :=
  ((chunks.filterMap (fun c =>
      c.embedding.map (fun emb =>
        SimilarityResult.mk c (cosine_similarity qe emb)))).insertionSort simGE).take
    limit

/-- Model of `EmbeddingService::search_similar` (lines 165-217): embed the
query, search the store, and if the store returned nothing while the
process-local chunk cache is non-empty, fall back to the in-memory
scan. -/
noncomputable def es_search_similar (o : ProviderOutcome) (chunks : List TextChunk)
    (entries : List StoreEntry) (query : String) (limit : Nat) :
    Except AppError (List SimilarityResult) :=
  match create_embedding o query with
  | .error e => .error e
  | .ok qe =>
      let dbResults := vdb_search_similar entries qe limit
      let results := dbResults.map (fun p => SimilarityResult.mk (docToChunk p.1) p.2)
      if results.isEmpty && !chunks.isEmpty then
        .ok (in_memory_search chunks qe limit)
      else
        .ok results

/-- C3: store-level read failures are skipped, never turned into an error
(an all-failed scan returns the empty result), and an empty store result
with a non-empty chunk cache makes `search_similar` return the in-memory
cosine ranking, sorted descending and truncated to the limit. -/
theorem search_similar_fallback :
    (∀ (rest : List StoreEntry) (q : List ℝ) (k : Nat),
      vdb_search_similar (StoreEntry.readError :: rest) q k =
        vdb_search_similar rest q k) ∧
    (∀ (entries : List StoreEntry) (q : List ℝ) (k : Nat),
      (∀ e ∈ entries, e = StoreEntry.readError) →
      vdb_search_similar entries q k = []) ∧
    (∀ (o : ProviderOutcome) (chunks : List TextChunk) (entries : List StoreEntry)
      (query : String) (limit : Nat) (qe : List ℝ),
      create_embedding o query = Except.ok qe →
      vdb_search_similar entries qe limit = [] →
      chunks ≠ [] →
      es_search_similar o chunks entries query limit =
        Except.ok (in_memory_search chunks qe limit) ∧
      (in_memory_search chunks qe limit).length ≤ limit ∧
      (in_memory_search chunks qe limit).Pairwise
        (fun a b => b.similarity_score ≤ a.similarity_score)) := by
  refine ⟨?_, ?_, ?_⟩
  · intro rest q k
    unfold vdb_search_similar
    rw [List.filterMap_cons]
  · intro entries q k hall
    have hfm : entries.filterMap (fun e =>
        match e with
        | .ok doc => some (doc, cosine_similarity q doc.embedding)
        | .readError => none) = [] := by
      induction entries with
      | nil => rfl
      | cons e rest ih =>
          have he : e = StoreEntry.readError := hall e (by simp)
          subst he
          rw [List.filterMap_cons]
          exact ih (fun e hmem => hall e (by simp [hmem]))
    unfold vdb_search_similar
    rw [hfm]
    simp
  · intro o chunks entries query limit qe hok hdb hch
    refine ⟨?_, List.length_take_le limit _,
      List.Pairwise.sublist (List.take_sublist limit _)
        (List.sorted_insertionSort simGE _)⟩
    have hres : (vdb_search_similar entries qe limit).map
        (fun p => SimilarityResult.mk (docToChunk p.1) p.2) = [] := by
      rw [hdb]; rfl
    have hchb : chunks.isEmpty = false := by
      cases chunks with
      | nil => exact absurd rfl hch
      | cons c cs => rfl
    simp [es_search_similar, hok, hres, hchb]

/-- Witness for C3 at a concrete store with one unreadable entry and one
cached chunk. -/
theorem search_similar_fallback_witness :
    (create_embedding ProviderOutcome.unreachable ("q") =
      Except.ok (create_mock_embedding ("q"))) ∧
    (vdb_search_similar [StoreEntry.readError] (create_mock_embedding ("q")) 3 = []) ∧
    (([⟨"c", "body", "u", "t", some [(1 : ℝ)], "{}"⟩] : List TextChunk) ≠ []) ∧
    (es_search_similar ProviderOutcome.unreachable
        [⟨"c", "body", "u", "t", some [(1 : ℝ)], "{}"⟩] [StoreEntry.readError] ("q") 3 =
      Except.ok (in_memory_search [⟨"c", "body", "u", "t", some [(1 : ℝ)], "{}"⟩]
        (create_mock_embedding ("q")) 3) ∧
     (in_memory_search [⟨"c", "body", "u", "t", some [(1 : ℝ)], "{}"⟩]
        (create_mock_embedding ("q")) 3).length ≤ 3 ∧
     (in_memory_search [⟨"c", "body", "u", "t", some [(1 : ℝ)], "{}"⟩]
        (create_mock_embedding ("q")) 3).Pairwise
       (fun a b => b.similarity_score ≤ a.similarity_score)) := by
  have h1 : create_embedding ProviderOutcome.unreachable ("q") =
      Except.ok (create_mock_embedding ("q")) := rfl
  have h2 : vdb_search_similar [StoreEntry.readError]
      (create_mock_embedding ("q")) 3 = [] := by
    unfold vdb_search_similar
    rw [List.filterMap_cons]
    rfl
  have h3 : ([⟨"c", "body", "u", "t", some [(1 : ℝ)], "{}"⟩] : List TextChunk) ≠ [] := by
    simp
  exact ⟨h1, h2, h3, search_similar_fallback.2.2 ProviderOutcome.unreachable
    [⟨"c", "body", "u", "t", some [(1 : ℝ)], "{}"⟩] [StoreEntry.readError] ("q") 3
    (create_mock_embedding ("q")) h1 h2 h3⟩

/-!
### Crawler (wiki_service.rs)

The HTTP fetch is modelled by an environment `env : String → FetchOutcome`
(network failure, or a response with a status code and the page that
`parse_wiki_page` would produce from its body — HTML parsing itself is
pure and total and is abstracted into the environment).  Link extraction
(`extract_wiki_links`, again HTML parsing) is abstracted as a function
`linksOf : String → List String` from page content to the extracted link
list.  `save_page_content` only fails when `process_wiki_page` fails,
which it never does (all its internal failures are logged and swallowed),
so the scrape recursion is total and returns the updated state; equally,
the `if let Err` handlers around recursive calls and seeds never fire. -/

/-- WikiPage from wiki_service.rs. -/
structure WikiPage where
  title : String
  url : String
  content : String
  last_modified : Option String
  categories : List String

/-- Environment behaviour of one GET of a page. -/
inductive FetchOutcome where
  | response (status : Nat) (page : WikiPage)
  | netError

/-- Rust `StatusCode::is_success`: 2xx. -/
def statusIsSuccess (s : Nat) : Bool := 200 ≤ s && s ≤ 299

/-- Crawler state: WikiStatus fields of wiki_service.rs together with the
`visited_urls` set (modelled as a list of distinct-by-insertion urls). -/
structure CrawlState where
  visited_urls : List String
  pages_scraped : Nat
  errors_encountered : Nat
  is_updating : Bool
  total_pages : Nat
  last_update : Option String

/-- Model of `WikiService::scrape_single_page` (lines 156-168): error on
network failure or non-2xx status, otherwise the parsed page. -/
def scrape_single_page (env : String → FetchOutcome) (url : String) :
    Except AppError WikiPage :=
  match env url with
  | .netError => .error (AppError.WikiError url)
  | .response status page =>
      if statusIsSuccess status then .ok page
      else .error (AppError.WikiError url)

/-- Link normalisation inside the link loop of `scrape_page_recursive`
(lines 131-137): root-relative links get the base url, absolute http(s)
links pass through, anything else is skipped. -/
def resolveLink (base_url link : String) : Option String :=
  if link.startsWith ("/") then some (base_url ++ link)
  else if link.startsWith ("http") then some link
  else none

mutual

/-- Model of `WikiService::scrape_page_recursive` (lines 112-154). -/
def scrapePage (env : String → FetchOutcome) (linksOf : String → List String)
    (base_url : String) (st : CrawlState) (url : String) (depth maxDepth : Nat) :
    CrawlState :=
  if maxDepth < depth ∨ url ∈ st.visited_urls then st
  else
    let st1 := { st with visited_urls := url :: st.visited_urls }
    match scrape_single_page env url with
    | .ok page =>
        let st2 := { st1 with pages_scraped := st1.pages_scraped + 1 }
        if depth < maxDepth then
          scrapeList env linksOf base_url st2 ((linksOf page.content).take 5)
            (depth + 1) maxDepth
        else st2
    | .error _ =>
        { st1 with errors_encountered := st1.errors_encountered + 1 }
  termination_by (maxDepth + 1 - depth, 0)

/-- The `for link in links.iter().take(5)` loop of
`scrape_page_recursive`. -/
def scrapeList (env : String → FetchOutcome) (linksOf : String → List String)
    (base_url : String) (st : CrawlState) (links : List String)
    (depth maxDepth : Nat) : CrawlState :=
  match links with
  | [] => st
  | link :: rest =>
      let st' :=
        match resolveLink base_url link with
        | none => st
        | some full => scrapePage env linksOf base_url st full depth maxDepth
      scrapeList env linksOf base_url st' rest depth maxDepth
  termination_by (maxDepth + 1 - depth, links.length + 1)

end

/-- The entry point seed paths of `update_content` (lines 81-89). -/
def entry_points : List String :=
  ["/index.php?title=Main_Page", "/index.php?title=Blocks",
   "/index.php?title=Items", "/index.php?title=Crafting",
   "/index.php?title=Getting_Started", "/index.php?title=Knapping",
   "/index.php?title=Clay_forming"]

/-- The seed loop of `update_content` (lines 91-100): each seed is crawled
from depth 0 with max depth 3; a seed failure would only count an error,
and the crawl of the remaining seeds continues either way. -/
def crawlSeeds (env : String → FetchOutcome) (linksOf : String → List String)
    (base_url : String) : CrawlState → List String → CrawlState
  | st, [] => st
  | st, ep :: rest =>
      crawlSeeds env linksOf base_url
        (scrapePage env linksOf base_url st (base_url ++ ep) 0 3) rest

/-- Model of `WikiService::update_content` (lines 74-110): set
`is_updating`, reset the two counters (but not `visited_urls`), crawl the
seeds, then stamp `last_update` (the wall-clock time is the `now`
parameter) and copy `pages_scraped` into `total_pages`. -/
def update_content (env : String → FetchOutcome) (linksOf : String → List String)
    (base_url : String) (now : String) (st : CrawlState) : CrawlState :=
  let st0 := { st with is_updating := true, pages_scraped := 0,
                       errors_encountered := 0 }
  let st1 := crawlSeeds env linksOf base_url st0 entry_points
  { st1 with is_updating := false, last_update := some now,
             total_pages := st1.pages_scraped }

/-- C8: a page whose fetch yields a non-2xx status (e.g. 500) adds the url
to the visited set, increments `errors_encountered` by exactly 1, leaves
`pages_scraped` unchanged, and the crawl of the remaining sibling seeds
and sibling links proceeds from the updated state rather than
aborting. -/
theorem fetch_failure_counts (env : String → FetchOutcome)
    (linksOf : String → List String) (base_url : String) (st : CrawlState)
    (url : String) (depth maxDepth status : Nat) (page : WikiPage)
    (hvis : url ∉ st.visited_urls) (hdep : depth ≤ maxDepth)
    (henv : env url = FetchOutcome.response status page)
    (hst : statusIsSuccess status = false) :
    scrapePage env linksOf base_url st url depth maxDepth =
      { st with visited_urls := url :: st.visited_urls,
                errors_encountered := st.errors_encountered + 1 } ∧
    (scrapePage env linksOf base_url st url depth maxDepth).pages_scraped =
      st.pages_scraped ∧
    (∀ ep rest, crawlSeeds env linksOf base_url st (ep :: rest) =
      crawlSeeds env linksOf base_url
        (scrapePage env linksOf base_url st (base_url ++ ep) 0 3) rest) ∧
    (∀ link rest, scrapeList env linksOf base_url st (link :: rest) depth maxDepth =
      scrapeList env linksOf base_url
        (match resolveLink base_url link with
         | none => st
         | some full => scrapePage env linksOf base_url st full depth maxDepth)
        rest depth maxDepth) := by
  have hguard : ¬ (maxDepth < depth ∨ url ∈ st.visited_urls) := by
    rintro (h | h)
    · omega
    · exact hvis h
  have hmain : scrapePage env linksOf base_url st url depth maxDepth =
      { st with visited_urls := url :: st.visited_urls,
                errors_encountered := st.errors_encountered + 1 } := by
    rw [scrapePage, if_neg hguard]
    simp only [scrape_single_page, henv, hst, Bool.false_eq_true, if_false]
  refine ⟨hmain, by rw [hmain], fun ep rest => by rw [crawlSeeds],
    fun link rest => by rw [scrapeList]⟩

/-- Witness for C8 at a concrete environment that answers every fetch with
an HTTP 500. -/
theorem fetch_failure_counts_witness :
    ("u" ∉ (⟨[], 0, 0, false, 0, none⟩ : CrawlState).visited_urls) ∧
    ((0 : Nat) ≤ 3) ∧
    ((fun _ => FetchOutcome.response 500 ⟨"t", "u", "c", none, []⟩ :
        String → FetchOutcome) "u" =
      FetchOutcome.response 500 ⟨"t", "u", "c", none, []⟩) ∧
    (statusIsSuccess 500 = false) ∧
    (scrapePage (fun _ => FetchOutcome.response 500 ⟨"t", "u", "c", none, []⟩)
        (fun _ => []) ("b") ⟨[], 0, 0, false, 0, none⟩ ("u") 0 3 =
      { (⟨[], 0, 0, false, 0, none⟩ : CrawlState) with
          visited_urls := "u" :: ([] : List String),
          errors_encountered := 0 + 1 } ∧
      (scrapePage (fun _ => FetchOutcome.response 500 ⟨"t", "u", "c", none, []⟩)
        (fun _ => []) ("b") ⟨[], 0, 0, false, 0, none⟩ ("u") 0 3).pages_scraped = 0 ∧
      (∀ ep rest, crawlSeeds (fun _ => FetchOutcome.response 500 ⟨"t", "u", "c", none, []⟩)
          (fun _ => []) ("b") ⟨[], 0, 0, false, 0, none⟩ (ep :: rest) =
        crawlSeeds (fun _ => FetchOutcome.response 500 ⟨"t", "u", "c", none, []⟩)
          (fun _ => []) ("b")
          (scrapePage (fun _ => FetchOutcome.response 500 ⟨"t", "u", "c", none, []⟩)
            (fun _ => []) ("b") ⟨[], 0, 0, false, 0, none⟩ ("b" ++ ep) 0 3) rest) ∧
      (∀ link rest, scrapeList (fun _ => FetchOutcome.response 500 ⟨"t", "u", "c", none, []⟩)
          (fun _ => []) ("b") ⟨[], 0, 0, false, 0, none⟩ (link :: rest) 0 3 =
        scrapeList (fun _ => FetchOutcome.response 500 ⟨"t", "u", "c", none, []⟩)
          (fun _ => []) ("b")
          (match resolveLink ("b") link with
           | none => (⟨[], 0, 0, false, 0, none⟩ : CrawlState)
           | some full =>
              scrapePage (fun _ => FetchOutcome.response 500 ⟨"t", "u", "c", none, []⟩)
                (fun _ => []) ("b") ⟨[], 0, 0, false, 0, none⟩ full 0 3)
          rest 0 3)) :=
  ⟨by simp, by omega, rfl, by decide,
    fetch_failure_counts _ _ ("b") _ ("u") 0 3 500 _ (by simp) (by omega) rfl (by decide)⟩

lemma scrapePage_visited_mono :
    ∀ (n : Nat) (env : String → FetchOutcome) (linksOf : String → List String)
      (b : String) (st : CrawlState) (url : String) (depth maxDepth : Nat),
      maxDepth + 1 - depth ≤ n →
      st.visited_urls ⊆ (scrapePage env linksOf b st url depth maxDepth).visited_urls := by
  intro n
  induction n with
  | zero =>
      intro env lo b st url depth maxD hn
      rw [scrapePage, if_pos (Or.inl (by omega))]
      exact fun x hx => hx
  | succ n ih =>
      intro env lo b st url depth maxD hn
      have hlist : ∀ (links : List String) (st : CrawlState) (d : Nat),
          maxD + 1 - d ≤ n →
          st.visited_urls ⊆ (scrapeList env lo b st links d maxD).visited_urls := by
        intro links
        induction links with
        | nil => intro st d hd; rw [scrapeList]; exact fun x hx => hx
        | cons l rest ihl =>
            intro st d hd
            rw [scrapeList]
            cases hres : resolveLink b l with
            | none =>
                simp only [hres]
                exact ihl st d hd
            | some full =>
                simp only [hres]
                exact (ih env lo b st full d maxD hd).trans
                  (ihl _ d hd)
      by_cases hg : maxD < depth ∨ url ∈ st.visited_urls
      · rw [scrapePage, if_pos hg]
        exact fun x hx => hx
      · rw [scrapePage, if_neg hg]
        cases hs : scrape_single_page env url with
        | ok page =>
            simp only [hs]
            by_cases hd : depth < maxD
            · rw [if_pos hd]
              refine List.Subset.trans ?_ (hlist _ _ (depth + 1) (by omega))
              exact fun x hx => List.mem_cons_of_mem _ hx
            · rw [if_neg hd]
              exact fun x hx => List.mem_cons_of_mem _ hx
        | error e =>
            simp only [hs]
            exact fun x hx => List.mem_cons_of_mem _ hx

lemma crawlSeeds_visited_mono (env : String → FetchOutcome)
    (lo : String → List String) (b : String) :
    ∀ (seeds : List String) (st : CrawlState),
      st.visited_urls ⊆ (crawlSeeds env lo b st seeds).visited_urls := by
  intro seeds
  induction seeds with
  | nil => intro st; exact fun x hx => hx
  | cons ep rest ihs =>
      intro st
      rw [crawlSeeds]
      exact (scrapePage_visited_mono 4 env lo b st (b ++ ep) 0 3 (by omega)).trans
        (ihs _)

/-- C10: a url already in the visited set is skipped (the state is
returned unchanged, no fetch, no counting); the visited set only ever
grows across a scrape and across a whole `update_content` run; and
`update_content` resets the two counters at the start, so its result is
independent of their incoming values — while `visited_urls` is never
cleared. -/
theorem visited_set_only_grows :
    (∀ (env : String → FetchOutcome) (lo : String → List String) (b : String)
      (st : CrawlState) (url : String) (depth maxDepth : Nat),
      url ∈ st.visited_urls →
      scrapePage env lo b st url depth maxDepth = st) ∧
    (∀ (env : String → FetchOutcome) (lo : String → List String) (b : String)
      (st : CrawlState) (url : String) (depth maxDepth : Nat),
      st.visited_urls ⊆ (scrapePage env lo b st url depth maxDepth).visited_urls) ∧
    (∀ (env : String → FetchOutcome) (lo : String → List String) (b now : String)
      (st : CrawlState) (p e : Nat),
      update_content env lo b now
        { st with pages_scraped := p, errors_encountered := e } =
      update_content env lo b now st) ∧
    (∀ (env : String → FetchOutcome) (lo : String → List String) (b now : String)
      (st : CrawlState),
      st.visited_urls ⊆ (update_content env lo b now st).visited_urls) := by
  refine ⟨?_, ?_, ?_, ?_⟩
  · intro env lo b st url depth maxD hmem
    rw [scrapePage, if_pos (Or.inr hmem)]
  · intro env lo b st url depth maxD
    exact scrapePage_visited_mono (maxD + 1 - depth) env lo b st url depth maxD
      (le_refl _)
  · intro env lo b now st p e
    rfl
  · intro env lo b now st
    exact crawlSeeds_visited_mono env lo b entry_points
      { st with is_updating := true, pages_scraped := 0, errors_encountered := 0 }

/-- Witness for C10: a previously visited url is skipped in a concrete
state. -/
theorem visited_set_only_grows_witness :
    ("u" ∈ (⟨["u"], 3, 1, false, 3, none⟩ : CrawlState).visited_urls) ∧
    scrapePage (fun _ => FetchOutcome.netError) (fun _ => []) ("b")
      ⟨["u"], 3, 1, false, 3, none⟩ ("u") 0 3 =
      ⟨["u"], 3, 1, false, 3, none⟩ :=
  ⟨by simp, visited_set_only_grows.1 _ _ ("b") _ ("u") 0 3 (by simp)⟩

end VSAI
